import Mathlib

/-!
Verification of the windowed collection-and-persistence pipeline of
Market-Sentiment-Analysis (`src/Avg_Data.py`), as a shallow embedding.

Modelling conventions:
* A pandas DataFrame of posts is a `Frame`: a list of `Row`s (raw fields
  `Title`, `Text`, `Date` plus the three derived sentiment cells, absent
  when the column has not been added) together with three flags recording
  whether the derived columns `Sentiment_Title`, `Sentiment_Text`,
  `Overall_Sentiment` are present in the frame.
* Calendar dates are `Int`; sentiment scores are `ℚ` (the scorer is an
  opaque external oracle, passed as a parameter `score : String → ℚ`).
* The durable CSV file is `Option Frame` (`none` = file absent); for the
  loading claim a possibly malformed file is `Option FileData`.
* The feed source is a list of `FeedItem`s; `FeedItem.fail` marks the point
  where the source raises (network/auth error).
-/

/-- Raw fields of a post: columns `Title`, `Text`, `Date` of the DataFrame. -/
structure Post where
  title : String
  body : String
  date : Int
deriving Repr, DecidableEq

/-- One DataFrame row: the raw post plus the derived sentiment cells, which
are `none` until `analyze_daily_sentiment` has added the derived columns. -/
structure Row where
  post : Post
  sentTitle : Option ℚ := none
  sentText : Option ℚ := none
  overall : Option ℚ := none
deriving Repr, DecidableEq

/-- A pandas DataFrame of posts: its rows plus presence flags for the three
derived columns `Sentiment_Title`, `Sentiment_Text`, `Overall_Sentiment`. -/
structure Frame where
  rows : List Row
  hasSentTitle : Bool := false
  hasSentText : Bool := false
  hasOverall : Bool := false
deriving Repr, DecidableEq

/-- The deduplication identity of a row: the `(Title, Text)` pair, as in
`drop_duplicates(subset=['Title', 'Text'])`. -/
def rowKey (r : Row) : String × String := (r.post.title, r.post.body)

/-- A fresh DataFrame built from raw rows only, as in
`pd.DataFrame(posts_data, columns=['Title', 'Text', 'Date'])`. -/
def Frame.ofRows (rows : List Row) : Frame := { rows := rows }

/-- Embeds `drop_duplicates(subset=['Title', 'Text'], keep='last')`
(Avg_Data.py line 117 and line 171): a row is kept iff no later row shares
its `(Title, Text)` key; kept rows stay in their original order. -/
def dropDuplicatesKeepLast : List Row → List Row
  | [] => []
  | r :: rest =>
      if ∃ q ∈ rest, rowKey q = rowKey r then dropDuplicatesKeepLast rest
      else r :: dropDuplicatesKeepLast rest

/-- The merge operation of the spec (section 4.2): concatenate existing then
incoming, then deduplicate by `(Title, Text)` keeping the later occurrence.
This is `pd.concat([existing, incoming]).drop_duplicates(subset=['Title',
'Text'], keep='last')` from Avg_Data.py lines 117 and 171. -/
def mergePosts (existing incoming : List Row) : List Row :=
  dropDuplicatesKeepLast (existing ++ incoming)

/-- Concatenation plus dedup at the DataFrame level: rows are merged as in
`mergePosts`; the column set of a pandas `concat` is the union of the two
frames' columns, so each derived-column flag is the disjunction. -/
def concatDedupFrames (f g : Frame) : Frame :=
  { rows := mergePosts f.rows g.rows,
    hasSentTitle := f.hasSentTitle || g.hasSentTitle,
    hasSentText := f.hasSentText || g.hasSentText,
    hasOverall := f.hasOverall || g.hasOverall }

/-- Embeds `save_posts_to_csv` (Avg_Data.py lines 106-119), returning the new
durable file content: if the file exists, the written content is the dedup of
existing-then-new; otherwise the new frame is written as is. -/
def save_posts_to_csv (file : Option Frame) (posts_df : Frame) : Frame :=
  match file with
  | some existing => concatDedupFrames existing posts_df
  | none => posts_df

/-- The PostStore invariant of the spec (section 3): no two rows of the store
share the `(Title, Text)` identity. -/
def keysNodup (l : List Row) : Prop := (l.map rowKey).Nodup

instance (l : List Row) : Decidable (keysNodup l) := by
  unfold keysNodup; infer_instance

/-- Lookup of the store entry carrying a given identity. -/
def findByKey (k : String × String) (l : List Row) : Option Row :=
  l.find? (fun r => rowKey r = k)

/-- The overall sentiment of a post (spec section 3): the mean of the title
score and the body score. -/
def overallSentiment (score : String → ℚ) (p : Post) : ℚ :=
  (score p.title + score p.body) / 2

/-- One row after `analyze_daily_sentiment` has applied the scorer (Avg_Data.py
lines 95-99): the three derived cells are filled in. -/
def applySentimentRow (score : String → ℚ) (r : Row) : Row :=
  { r with
    sentTitle := some (score r.post.title),
    sentText := some (score r.post.body),
    overall := some ((score r.post.title + score r.post.body) / 2) }

/-- Embeds `analyze_daily_sentiment` (Avg_Data.py lines 84-103). It mutates the
DataFrame passed to it (adds the columns `Sentiment_Title`, `Sentiment_Text`,
`Overall_Sentiment`), then groups the `Overall_Sentiment` column by `Date`
(pandas `groupby` sorts the keys ascending) and averages per group. The result
is the pair (DataFrame after the mutation, daily series). -/
def analyze_daily_sentiment (score : String → ℚ) (posts_df : Frame) :
    Frame × List (Int × ℚ) :=
  let rows2 := posts_df.rows.map (applySentimentRow score)
  let posts_df2 : Frame :=
    { rows := rows2, hasSentTitle := true, hasSentText := true, hasOverall := true }
  let dates := List.insertionSort (fun a b => a ≤ b)
    ((rows2.map (fun r => r.post.date)).dedup)
  let daily := dates.map (fun d =>
    let g := (rows2.filter (fun r => r.post.date = d)).map (fun r => r.overall.getD 0)
    (d, g.sum / (g.length : ℚ)))
  (posts_df2, daily)

/-- One item yielded by the feed source: either a post, or the point at which
the source raises (network/auth error), which propagates uncaught. -/
inductive FeedItem where
  | post (p : Post)
  | fail
deriving Repr, DecidableEq

/-- The loop of `get_reddit_posts_for_date` (Avg_Data.py lines 43-59): iterate
the source newest first; break at the first post dated strictly before
`start_date`; append in-window posts; whenever the collected count is a
positive multiple of `batch_size`, save all posts collected so far to the CSV
file. A source failure surfaces as `Except.error` carrying the file state at
the failure point. -/
def collectLoop (start_date end_date : Int) (batch_size : Nat) :
    List FeedItem → List Row → Option Frame →
    Except (Option Frame) (List Row × Option Frame)
  | [], posts_data, file => Except.ok (posts_data, file)
  | FeedItem.fail :: _, _, file => Except.error file
  | FeedItem.post p :: rest, posts_data, file =>
      if p.date < start_date then Except.ok (posts_data, file)
      else if start_date ≤ p.date ∧ p.date ≤ end_date then
        let posts_data2 := posts_data ++ [{ post := p }]
        let file2 :=
          if posts_data2.length % batch_size = 0 then
            some (save_posts_to_csv file (Frame.ofRows posts_data2))
          else file
        collectLoop start_date end_date batch_size rest posts_data2 file2
      else collectLoop start_date end_date batch_size rest posts_data file

/-- Embeds `get_reddit_posts_for_date` (Avg_Data.py lines 24-66): run the
collection loop with an empty accumulator, then save any remaining data if the
collected list is nonempty, and return the collected posts together with the
final file content. -/
def get_reddit_posts_for_date (source : List FeedItem) (start_date end_date : Int)
    (batch_size : Nat) (file : Option Frame) :
    Except (Option Frame) (List Row × Option Frame) :=
  match collectLoop start_date end_date batch_size source [] file with
  | Except.error f => Except.error f
  | Except.ok (posts_data, f) =>
      if posts_data.isEmpty then Except.ok (posts_data, f)
      else Except.ok (posts_data, some (save_posts_to_csv f (Frame.ofRows posts_data)))

/-- Content of the durable CSV file when it exists: either a well-formed table
or a malformed file that the CSV reader cannot parse. -/
inductive FileData where
  | table (f : Frame)
  | malformed
deriving Repr, DecidableEq

/-- Models `pd.read_csv`: a well-formed tabular file parses to its frame; on a
malformed file pandas raises (for example `EmptyDataError` on an empty file or
`ParserError` on inconsistent rows), modelled as `Except.error`. -/
def pd_read_csv : FileData → Except Unit Frame
  | FileData.table f => Except.ok f
  | FileData.malformed => Except.error ()

/-- Embeds `load_posts_from_csv` (Avg_Data.py lines 122-134): read the file if
it exists, otherwise return an empty 3-column DataFrame. The read itself is
not guarded, so a read error on a malformed file propagates. -/
def load_posts_from_csv (file : Option FileData) : Except Unit Frame :=
  match file with
  | some fd => pd_read_csv fd
  | none => Except.ok (Frame.ofRows [])

/-- The load performed by `main` for an absent or well-formed durable file:
this is `load_posts_from_csv` restricted to files that parse. -/
def loadedFrame (file : Option Frame) : Frame :=
  match file with
  | some f => f
  | none => Frame.ofRows []

/-- Embeds `main` (Avg_Data.py lines 153-180) for an absent or well-formed
durable file: load the stored posts, collect the window (the collector flushes
into the same file), merge with the stored posts only when the collected
DataFrame is nonempty, aggregate (which adds the derived columns to the
frame), then persist that same frame. Returns the emitted daily series and
the final durable file content; a collection failure propagates with the file
state at the failure point. -/
def main_run (score : String → ℚ) (file : Option Frame) (source : List FeedItem)
    (start_date end_date : Int) (batch_size : Nat) :
    Except (Option Frame) (List (Int × ℚ) × Frame) :=
  let stored_posts_df := loadedFrame file
  match get_reddit_posts_for_date source start_date end_date batch_size file with
  | Except.error f => Except.error f
  | Except.ok (collected, file1) =>
      let posts_df :=
        if collected.isEmpty then Frame.ofRows collected
        else concatDedupFrames stored_posts_df (Frame.ofRows collected)
      let result := analyze_daily_sentiment score posts_df
      let file2 := save_posts_to_csv file1 result.1
      Except.ok (result.2, file2)

/-- Rows of the durable file, empty when the file is absent. -/
def fileRows : Option Frame → List Row
  | some f => f.rows
  | none => []

/-- Whether some row of the durable file carries the identity of `r`. -/
def keyMemFile (r : Row) (file : Option Frame) : Bool :=
  (fileRows file).any (fun q => rowKey q = rowKey r)

/-- The 3-column rows built from raw posts, as the collector accumulates them. -/
def rowsOf (ps : List Post) : List Row := ps.map (fun p => { post := p })

/-- Durability invariant of the collection loop: every row in the
already-flushed prefix of the accumulator (the largest multiple of
`batch_size`) has its identity present in the durable file. -/
def flushedSaved (batch_size : Nat) (acc : List Row) (file : Option Frame) : Prop :=
  ∀ r ∈ acc.take (acc.length - acc.length % batch_size), keyMemFile r file = true

-- Concrete fixtures used by the witnesses below.

/-- A concrete sentiment oracle used in witnesses. -/
def scoreEx : String → ℚ := fun t =>
  if t = "a" ∨ t = "b" then 1 else if t = "c" ∨ t = "d" then -1 else 0

def pA : Post := { title := "a", body := "b", date := 5 }

def pC : Post := { title := "c", body := "d", date := 5 }

def p10 : Post := { title := "t10", body := "x", date := 10 }

def p9 : Post := { title := "t9", body := "x", date := 9 }

def p8 : Post := { title := "t8", body := "x", date := 8 }

def p7 : Post := { title := "t7", body := "x", date := 7 }

def rowOld : Row := { post := { title := "a", body := "x", date := 1 } }

def rowOther : Row := { post := { title := "b", body := "y", date := 2 } }

def rowNew : Row := { post := { title := "a", body := "x", date := 3 } }

-- Helper lemmas about dedup.

theorem dropDuplicatesKeepLast_append_single (S : List Row) (p : Row)
    (h : keysNodup S) :
    dropDuplicatesKeepLast (S ++ [p]) =
      S.filter (fun r => rowKey r ≠ rowKey p) ++ [p] := by
  induction S with
  | nil =>
      simp [dropDuplicatesKeepLast]
  | cons r S ih =>
      have hnd : keysNodup S := by
        simpa [keysNodup] using (List.nodup_cons.mp h).2
      have hr : ∀ x ∈ S, rowKey x ≠ rowKey r := by
        intro x hx hxy
        exact (List.nodup_cons.mp h).1 (hxy ▸ List.mem_map_of_mem rowKey hx)
      have hcond : (∃ q ∈ S ++ [p], rowKey q = rowKey r) ↔ rowKey p = rowKey r := by
        constructor
        · rintro ⟨q, hq, hkq⟩
          rcases List.mem_append.mp hq with hq | hq
          · exact absurd hkq (hr q hq)
          · rw [List.mem_singleton.mp hq] at hkq
            exact hkq
        · intro hk
          exact ⟨p, List.mem_append.mpr (Or.inr (List.mem_singleton.mpr rfl)), hk⟩
      rw [List.cons_append]
      by_cases hk : rowKey p = rowKey r
      · rw [dropDuplicatesKeepLast, if_pos (hcond.mpr hk), ih hnd,
          List.filter_cons_of_neg]
        simp [hk.symm]
      · rw [dropDuplicatesKeepLast, if_neg (fun hc => hk (hcond.mp hc)), ih hnd,
          List.filter_cons_of_pos]
        · rfl
        · exact decide_eq_true (fun hh : rowKey r = rowKey p => hk hh.symm)

theorem dropDuplicatesKeepLast_of_keysNodup (S : List Row) (h : keysNodup S) :
    dropDuplicatesKeepLast S = S := by
  induction S with
  | nil => rfl
  | cons r S ih =>
      have hnd : keysNodup S := by
        simpa [keysNodup] using (List.nodup_cons.mp h).2
      have hr : ∀ x ∈ S, rowKey x ≠ rowKey r := by
        intro x hx hxy
        exact (List.nodup_cons.mp h).1 (hxy ▸ List.mem_map_of_mem rowKey hx)
      have hcond : ¬∃ q ∈ S, rowKey q = rowKey r := by
        rintro ⟨q, hq, hkq⟩
        exact hr q hq hkq
      rw [dropDuplicatesKeepLast, if_neg hcond, ih hnd]

/-- Dedup preserves the set of identities: every input row has a
representative of its key in the output. -/
theorem dropDuplicatesKeepLast_key_mem (l : List Row) :
    ∀ r ∈ l, ∃ q ∈ dropDuplicatesKeepLast l, rowKey q = rowKey r := by
  induction l with
  | nil => intro r hr; cases hr
  | cons a l ih =>
      intro r hr
      by_cases hc : ∃ q ∈ l, rowKey q = rowKey a
      · rcases List.mem_cons.mp hr with h1 | h1
        · rcases hc with ⟨b, hb, hkb⟩
          rcases ih b hb with ⟨q, hq, hkq⟩
          refine ⟨q, ?_, ?_⟩
          · rw [dropDuplicatesKeepLast, if_pos ⟨b, hb, hkb⟩]
            exact hq
          · rw [hkq, hkb, h1]
        · rcases ih r h1 with ⟨q, hq, hkq⟩
          refine ⟨q, ?_, hkq⟩
          rw [dropDuplicatesKeepLast, if_pos hc]
          exact hq
      · rcases List.mem_cons.mp hr with h1 | h1
        · refine ⟨a, ?_, by rw [h1]⟩
          rw [dropDuplicatesKeepLast, if_neg hc]
          exact List.mem_cons_self a _
        · rcases ih r h1 with ⟨q, hq, hkq⟩
          refine ⟨q, ?_, hkq⟩
          rw [dropDuplicatesKeepLast, if_neg hc]
          exact List.mem_cons_of_mem a hq

theorem length_filter_ne_key (S : List Row) (q : Row) (hnd : keysNodup S)
    (hq : q ∈ S) :
    (S.filter (fun r => rowKey r ≠ rowKey q)).length + 1 = S.length := by
  induction S with
  | nil => cases hq
  | cons a S ih =>
      have hnd' : keysNodup S := by
        simpa [keysNodup] using (List.nodup_cons.mp hnd).2
      have hhead : rowKey a ∉ S.map rowKey := (List.nodup_cons.mp hnd).1
      rcases List.mem_cons.mp hq with h1 | h1
      · rw [List.filter_cons_of_neg]
        · have hall : S.filter (fun r => rowKey r ≠ rowKey q) = S := by
            apply List.filter_eq_self.mpr
            intro x hx
            apply decide_eq_true
            intro hxy
            exact hhead (h1 ▸ hxy ▸ List.mem_map_of_mem rowKey hx)
          rw [hall, List.length_cons]
        · rw [h1]
          simp
      · have hne : rowKey a ≠ rowKey q := by
          intro hay
          exact hhead (hay ▸ List.mem_map_of_mem rowKey h1)
        rw [List.filter_cons_of_pos]
        · rw [List.length_cons, List.length_cons, ih hnd' h1]
        · exact decide_eq_true hne

theorem find?_append_of_all_neg (l1 l2 : List Row) (pred : Row → Bool)
    (h : ∀ r ∈ l1, ¬pred r = true) :
    (l1 ++ l2).find? pred = l2.find? pred := by
  induction l1 with
  | nil => rfl
  | cons a l1 ih =>
      rw [List.cons_append, List.find?_cons_of_neg _ (h a (List.mem_cons_self a l1))]
      exact ih (fun r hr => h r (List.mem_cons_of_mem a hr))

theorem dropDuplicatesKeepLast_append_of_covered (A B : List Row)
    (h : ∀ a ∈ A, ∃ b ∈ B, rowKey b = rowKey a) :
    dropDuplicatesKeepLast (A ++ B) = dropDuplicatesKeepLast B := by
  induction A with
  | nil => rfl
  | cons a A ih =>
      rcases h a (List.mem_cons_self a A) with ⟨b, hb, hkb⟩
      have hc : ∃ q ∈ A ++ B, rowKey q = rowKey a :=
        ⟨b, List.mem_append.mpr (Or.inr hb), hkb⟩
      rw [List.cons_append, dropDuplicatesKeepLast, if_pos hc,
        ih (fun x hx => h x (List.mem_cons_of_mem a hx))]

/-- C1: for a store `S` whose entries have pairwise distinct identities and an
incoming post `p` sharing its `(title, body)` identity with some `q ∈ S`,
`merge(S, [p])` has exactly `|S|` entries, the entry found for that identity is
`p`, and (when `p ≠ q`) `q` is no longer present: the merge concatenates
existing then incoming and deduplicates by identity keeping the later
occurrence, so the last write wins. -/
theorem c1_merge_dedup (S : List Row) (p q : Row) (hnd : keysNodup S)
    (hq : q ∈ S) (hk : rowKey p = rowKey q) :
    (mergePosts S [p]).length = S.length ∧
    findByKey (rowKey p) (mergePosts S [p]) = some p ∧
    (p ≠ q → q ∉ mergePosts S [p]) := by
  have hms : mergePosts S [p] = S.filter (fun r => rowKey r ≠ rowKey p) ++ [p] :=
    dropDuplicatesKeepLast_append_single S p hnd
  have hfilq : (S.filter (fun r => rowKey r ≠ rowKey p)) =
      (S.filter (fun r => rowKey r ≠ rowKey q)) := by rw [hk]
  refine ⟨?_, ?_, ?_⟩
  · rw [hms, List.length_append, hfilq]
    have := length_filter_ne_key S q hnd hq
    simpa using this
  · rw [hms]
    unfold findByKey
    rw [find?_append_of_all_neg]
    · rw [List.find?_cons_of_pos]
      simp
    · intro r hr habs
      rcases List.mem_filter.mp hr with ⟨_, hpr⟩
      exact (of_decide_eq_true hpr) (of_decide_eq_true habs)
  · intro hne hmem
    rw [hms] at hmem
    rcases List.mem_append.mp hmem with hmem | hmem
    · rcases List.mem_filter.mp hmem with ⟨_, hpr⟩
      exact (of_decide_eq_true hpr) hk.symm
    · exact hne (List.mem_singleton.mp hmem).symm

theorem c1_witness :
    keysNodup [rowOld, rowOther] ∧ rowOld ∈ [rowOld, rowOther] ∧
    rowKey rowNew = rowKey rowOld ∧
    ((mergePosts [rowOld, rowOther] [rowNew]).length = 2 ∧
      findByKey (rowKey rowNew) (mergePosts [rowOld, rowOther] [rowNew]) = some rowNew ∧
      (rowNew ≠ rowOld → rowOld ∉ mergePosts [rowOld, rowOther] [rowNew])) :=
  ⟨by decide, by decide, by decide,
    c1_merge_dedup [rowOld, rowOther] rowNew rowOld (by decide) (by decide) (by decide)⟩

/-- C2: merging the empty incoming sequence into a store with pairwise distinct
identities is the identity, and re-persisting the unchanged loaded store
(`save_posts_to_csv` re-reads the existing file, concatenates and dedups)
reproduces exactly the file's prior row content. -/
theorem c2_idempotent_merge (F : Frame) (hnd : keysNodup F.rows) :
    mergePosts F.rows [] = F.rows ∧
    (save_posts_to_csv (some F) (Frame.ofRows (mergePosts F.rows []))).rows = F.rows := by
  have h1 : mergePosts F.rows [] = F.rows := by
    unfold mergePosts
    rw [List.append_nil, dropDuplicatesKeepLast_of_keysNodup _ hnd]
  refine ⟨h1, ?_⟩
  show (concatDedupFrames F (Frame.ofRows (mergePosts F.rows []))).rows = F.rows
  rw [h1]
  show dropDuplicatesKeepLast (F.rows ++ F.rows) = F.rows
  rw [dropDuplicatesKeepLast_append_of_covered F.rows F.rows
    (fun a ha => ⟨a, ha, rfl⟩)]
  exact dropDuplicatesKeepLast_of_keysNodup _ hnd

theorem c2_witness :
    keysNodup (Frame.ofRows [rowOld, rowOther]).rows ∧
    (mergePosts (Frame.ofRows [rowOld, rowOther]).rows [] =
        (Frame.ofRows [rowOld, rowOther]).rows ∧
      (save_posts_to_csv (some (Frame.ofRows [rowOld, rowOther]))
        (Frame.ofRows (mergePosts (Frame.ofRows [rowOld, rowOther]).rows []))).rows =
        (Frame.ofRows [rowOld, rowOther]).rows) :=
  ⟨by decide, c2_idempotent_merge (Frame.ofRows [rowOld, rowOther]) (by decide)⟩

theorem collectLoop_break (start_date end_date : Int) (batch_size : Nat)
    (b : Post) (rest : List FeedItem) (hb : b.date < start_date) :
    ∀ (ps : List Post), (∀ p ∈ ps, start_date ≤ p.date) →
      ∀ (acc : List Row) (file : Option Frame),
        collectLoop start_date end_date batch_size
            (ps.map FeedItem.post ++ FeedItem.post b :: rest) acc file
          = collectLoop start_date end_date batch_size (ps.map FeedItem.post) acc file := by
  intro ps
  induction ps with
  | nil =>
      intro _ acc file
      simp only [List.map_nil, List.nil_append, collectLoop]
      rw [if_pos hb]
  | cons p ps ih =>
      intro hs acc file
      have hp : start_date ≤ p.date := hs p (List.mem_cons_self p ps)
      have hs' : ∀ x ∈ ps, start_date ≤ x.date :=
        fun x hx => hs x (List.mem_cons_of_mem p hx)
      simp only [List.map_cons, List.cons_append, collectLoop]
      rw [if_neg (not_lt.mpr hp), if_neg (not_lt.mpr hp)]
      by_cases hw : start_date ≤ p.date ∧ p.date ≤ end_date
      · rw [if_pos hw, if_pos hw]
        exact ih hs' _ _
      · rw [if_neg hw, if_neg hw]
        exact ih hs' _ _

/-- C3: the collector stops at the first iterated post dated strictly before
`start_date`: its full run equals its run on the source truncated just before
that post, so nothing at or after that position is inspected or appended. -/
theorem c3_early_stop (start_date end_date : Int) (batch_size : Nat)
    (file : Option Frame) (ps : List Post) (b : Post) (rest : List FeedItem)
    (hs : ∀ p ∈ ps, start_date ≤ p.date) (hb : b.date < start_date) :
    get_reddit_posts_for_date (ps.map FeedItem.post ++ FeedItem.post b :: rest)
        start_date end_date batch_size file
      = get_reddit_posts_for_date (ps.map FeedItem.post)
          start_date end_date batch_size file := by
  unfold get_reddit_posts_for_date
  rw [collectLoop_break start_date end_date batch_size b rest hb ps hs [] file]

theorem c3_witness :
    (∀ p ∈ [p10, p9, p8], (8 : Int) ≤ p.date) ∧ p7.date < 8 ∧
    get_reddit_posts_for_date
        ([p10, p9, p8].map FeedItem.post ++ FeedItem.post p7 :: [])
        8 9 100 none
      = get_reddit_posts_for_date ([p10, p9, p8].map FeedItem.post) 8 9 100 none ∧
    get_reddit_posts_for_date
        ([p10, p9, p8].map FeedItem.post ++ FeedItem.post p7 :: [])
        8 9 100 none
      = Except.ok ([{ post := p9 }, { post := p8 }],
          some (Frame.ofRows [{ post := p9 }, { post := p8 }])) :=
  ⟨by decide, by decide,
    c3_early_stop 8 9 100 none [p10, p9, p8] p7 [] (by decide) (by decide),
    by rfl⟩

theorem collectLoop_ok_mem (start_date end_date : Int) (batch_size : Nat) :
    ∀ (source : List FeedItem) (acc : List Row) (file : Option Frame)
      (acc' : List Row) (f' : Option Frame),
      collectLoop start_date end_date batch_size source acc file
        = Except.ok (acc', f') →
      ∀ r ∈ acc', r ∈ acc ∨ (start_date ≤ r.post.date ∧ r.post.date ≤ end_date) := by
  intro source
  induction source with
  | nil =>
      intro acc file acc' f' h r hr
      simp only [collectLoop] at h
      cases h
      exact Or.inl hr
  | cons item rest ih =>
      intro acc file acc' f' h r hr
      cases item with
      | fail =>
          simp only [collectLoop] at h
          exact Except.noConfusion h
      | post p =>
          simp only [collectLoop] at h
          by_cases h1 : p.date < start_date
          · rw [if_pos h1] at h
            cases h
            exact Or.inl hr
          · rw [if_neg h1] at h
            by_cases h2 : start_date ≤ p.date ∧ p.date ≤ end_date
            · rw [if_pos h2] at h
              rcases ih _ _ _ _ h r hr with hmem | hw
              · rcases List.mem_append.mp hmem with hmem | hmem
                · exact Or.inl hmem
                · rw [List.mem_singleton.mp hmem]
                  exact Or.inr h2
              · exact Or.inr hw
            · rw [if_neg h2] at h
              exact ih _ _ _ _ h r hr

/-- C4: (a) every post in the collector's result lies in the inclusive window
`start_date ≤ date ≤ end_date`; (b) when `start_date = end_date = D`, every
returned post is dated exactly `D`; (c) a post newer than `end_date` is
skipped without terminating the iteration: the run equals the run on the
remaining source. -/
theorem c4_window_filter (start_date end_date : Int) (batch_size : Nat)
    (file : Option Frame) :
    (∀ (source : List FeedItem) (acc : List Row) (f' : Option Frame),
      get_reddit_posts_for_date source start_date end_date batch_size file
        = Except.ok (acc, f') →
      ∀ r ∈ acc, start_date ≤ r.post.date ∧ r.post.date ≤ end_date) ∧
    (∀ (D : Int) (source : List FeedItem) (acc : List Row) (f' : Option Frame),
      get_reddit_posts_for_date source D D batch_size file = Except.ok (acc, f') →
      ∀ r ∈ acc, r.post.date = D) ∧
    (∀ (p : Post) (rest : List FeedItem), start_date ≤ end_date →
      end_date < p.date →
      get_reddit_posts_for_date (FeedItem.post p :: rest)
          start_date end_date batch_size file
        = get_reddit_posts_for_date rest start_date end_date batch_size file) := by
  have key : ∀ (s e : Int) (source : List FeedItem) (acc : List Row)
      (f' : Option Frame),
      get_reddit_posts_for_date source s e batch_size file = Except.ok (acc, f') →
      ∀ r ∈ acc, s ≤ r.post.date ∧ r.post.date ≤ e := by
    intro s e source acc f' h r hr
    unfold get_reddit_posts_for_date at h
    cases hl : collectLoop s e batch_size source [] file with
    | error f =>
        rw [hl] at h
        have h2 : Except.error (ε := Option Frame)
            (α := List Row × Option Frame) f = Except.ok (acc, f') := h
        exact Except.noConfusion h2
    | ok res =>
        obtain ⟨posts, f⟩ := res
        rw [hl] at h
        have h2 : (if posts.isEmpty = true then Except.ok (posts, f)
            else Except.ok (posts, some (save_posts_to_csv f (Frame.ofRows posts))))
            = Except.ok (acc, f') := h
        have hacc : posts = acc := by
          by_cases hemp : posts.isEmpty = true
          · rw [if_pos hemp] at h2
            cases h2
            rfl
          · rw [if_neg hemp] at h2
            cases h2
            rfl
        subst hacc
        rcases collectLoop_ok_mem s e batch_size source [] file posts f hl r hr with
          hmem | hw
        · cases hmem
        · exact hw
  refine ⟨key start_date end_date, ?_, ?_⟩
  · intro D source acc f' h r hr
    have := key D D source acc f' h r hr
    omega
  · intro p rest hse hnew
    unfold get_reddit_posts_for_date
    have hnl : ¬p.date < start_date := not_lt.mpr (le_trans hse (le_of_lt hnew))
    have hnw : ¬(start_date ≤ p.date ∧ p.date ≤ end_date) :=
      fun hc => absurd hc.2 (not_le.mpr hnew)
    simp only [collectLoop]
    rw [if_neg hnl, if_neg hnw]

theorem c4_witness :
    ((8 : Int) ≤ ({ post := p9 } : Row).post.date ∧
      ({ post := p9 } : Row).post.date ≤ 9) ∧
    ({ post := p8 } : Row).post.date = 8 ∧
    get_reddit_posts_for_date
        [FeedItem.post p10, FeedItem.post p9, FeedItem.post p8, FeedItem.post p7]
        8 9 100 none
      = get_reddit_posts_for_date
          [FeedItem.post p9, FeedItem.post p8, FeedItem.post p7] 8 9 100 none :=
  ⟨(c4_window_filter 8 9 100 none).1
      [FeedItem.post p10, FeedItem.post p9, FeedItem.post p8, FeedItem.post p7]
      [{ post := p9 }, { post := p8 }]
      (some (Frame.ofRows [{ post := p9 }, { post := p8 }]))
      (by rfl) { post := p9 } (by decide),
    (c4_window_filter 8 9 100 none).2.1 8 [FeedItem.post p8]
      [{ post := p8 }] (some (Frame.ofRows [{ post := p8 }]))
      (by rfl) { post := p8 } (by decide),
    (c4_window_filter 8 9 100 none).2.2 p10
      [FeedItem.post p9, FeedItem.post p8, FeedItem.post p7]
      (by decide) (by decide)⟩

theorem succ_flush_count (bs a : Nat) (hbs : 0 < bs) (h : ¬(a + 1) % bs = 0) :
    a + 1 - (a + 1) % bs = a - a % bs ∧ a - a % bs ≤ a := by
  have h1 : (a % bs + 1) % bs = (a + 1) % bs := by
    conv_rhs => rw [← Nat.mod_add_mod]
  have h2 : a % bs < bs := Nat.mod_lt _ hbs
  have h3 : a % bs + 1 ≠ bs := by
    intro hh
    apply h
    rw [← h1, hh, Nat.mod_self]
  have h4 : a % bs + 1 < bs := lt_of_le_of_ne (Nat.succ_le_of_lt h2) h3
  have h5 : (a + 1) % bs = a % bs + 1 := by rw [← h1, Nat.mod_eq_of_lt h4]
  have h6 : a % bs ≤ a := Nat.mod_le a bs
  rw [h5]
  omega

theorem keyMemFile_save (file : Option Frame) (df : Frame) (r : Row)
    (hr : r ∈ df.rows) :
    keyMemFile r (some (save_posts_to_csv file df)) = true := by
  cases file with
  | none =>
      show (fileRows (some df)).any (fun q => rowKey q = rowKey r) = true
      simp only [fileRows, List.any_eq_true]
      exact ⟨r, hr, by simp⟩
  | some ex =>
      rcases dropDuplicatesKeepLast_key_mem (ex.rows ++ df.rows) r
        (List.mem_append.mpr (Or.inr hr)) with ⟨q, hq, hkq⟩
      show (fileRows (some (concatDedupFrames ex df))).any
        (fun q => rowKey q = rowKey r) = true
      simp only [fileRows, concatDedupFrames, mergePosts, List.any_eq_true]
      exact ⟨q, hq, by simp [hkq]⟩

theorem collectLoop_fail_flushed (start_date end_date : Int) (batch_size : Nat)
    (rest : List FeedItem) (hbs : 0 < batch_size) :
    ∀ (ps : List Post) (acc : List Row) (file : Option Frame),
      (∀ p ∈ ps, start_date ≤ p.date) →
      flushedSaved batch_size acc file →
      ∃ f', collectLoop start_date end_date batch_size
              (ps.map FeedItem.post ++ FeedItem.fail :: rest) acc file
            = Except.error f' ∧
        flushedSaved batch_size
          (acc ++ rowsOf (ps.filter (fun q => q.date ≤ end_date))) f' := by
  intro ps
  induction ps with
  | nil =>
      intro acc file _ hinv
      refine ⟨file, ?_, ?_⟩
      · simp only [List.map_nil, List.nil_append, collectLoop]
      · simpa [rowsOf] using hinv
  | cons p ps ih =>
      intro acc file hs hinv
      have hp : start_date ≤ p.date := hs p (List.mem_cons_self p ps)
      have hs' : ∀ x ∈ ps, start_date ≤ x.date :=
        fun x hx => hs x (List.mem_cons_of_mem p hx)
      simp only [List.map_cons, List.cons_append, collectLoop]
      rw [if_neg (not_lt.mpr hp)]
      by_cases hw : p.date ≤ end_date
      · rw [if_pos (⟨hp, hw⟩ : start_date ≤ p.date ∧ p.date ≤ end_date)]
        have happ : acc ++ rowsOf ((p :: ps).filter (fun q => q.date ≤ end_date))
            = (acc ++ [({ post := p } : Row)])
              ++ rowsOf (ps.filter (fun q => q.date ≤ end_date)) := by
          simp [rowsOf, List.filter_cons, hw, List.append_assoc]
        by_cases hflush : (acc ++ [({ post := p } : Row)]).length % batch_size = 0
        · have hinv2 : flushedSaved batch_size (acc ++ [({ post := p } : Row)])
              (some (save_posts_to_csv file
                (Frame.ofRows (acc ++ [({ post := p } : Row)])))) := by
            intro r hr
            rw [hflush, Nat.sub_zero, List.take_length] at hr
            exact keyMemFile_save file _ r hr
          rcases ih (acc ++ [({ post := p } : Row)]) _ hs' hinv2 with ⟨f', hrun, hsaved⟩
          refine ⟨f', ?_, ?_⟩
          · rw [if_pos hflush]
            exact hrun
          · rw [happ]
            exact hsaved
        · have hlen : (acc ++ [({ post := p } : Row)]).length = acc.length + 1 := by
            simp
          have e1 := succ_flush_count batch_size acc.length hbs
            (by rw [← hlen]; exact hflush)
          have hinv2 : flushedSaved batch_size (acc ++ [({ post := p } : Row)]) file := by
            intro r hr
            rw [hlen, e1.1, List.take_append_of_le_length e1.2] at hr
            exact hinv r hr
          rcases ih (acc ++ [({ post := p } : Row)]) file hs' hinv2 with ⟨f', hrun, hsaved⟩
          refine ⟨f', ?_, ?_⟩
          · rw [if_neg hflush]
            exact hrun
          · rw [happ]
            exact hsaved
      · rw [if_neg (fun hc : start_date ≤ p.date ∧ p.date ≤ end_date => hw hc.2)]
        rcases ih acc file hs' hinv with ⟨f', hrun, hsaved⟩
        refine ⟨f', hrun, ?_⟩
        have hfc : (p :: ps).filter (fun q => q.date ≤ end_date)
            = ps.filter (fun q => q.date ≤ end_date) := by
          simp [List.filter_cons, hw]
        rw [hfc]
        exact hsaved

/-- C9: if the source fails after yielding posts `ps` (all dated at or after
`start_date`, so the stop condition has not been hit), the exception
propagates uncaught out of the collector, carrying the durable file in which
every post of the already-flushed prefix (the largest multiple of
`batch_size`) is retained by identity; the number of in-window posts collected
in this run but not yet flushed is at most `batch_size - 1`. -/
theorem c9_failure_durability (start_date end_date : Int) (batch_size : Nat)
    (file : Option Frame) (ps : List Post) (rest : List FeedItem)
    (hbs : 0 < batch_size) (hs : ∀ p ∈ ps, start_date ≤ p.date) :
    ∃ f', get_reddit_posts_for_date (ps.map FeedItem.post ++ FeedItem.fail :: rest)
            start_date end_date batch_size file = Except.error f' ∧
      flushedSaved batch_size (rowsOf (ps.filter (fun q => q.date ≤ end_date))) f' ∧
      (rowsOf (ps.filter (fun q => q.date ≤ end_date))).length
        - ((rowsOf (ps.filter (fun q => q.date ≤ end_date))).length
            - (rowsOf (ps.filter (fun q => q.date ≤ end_date))).length % batch_size)
        ≤ batch_size - 1 := by
  have hinv : flushedSaved batch_size [] file := by
    intro r hr
    simp at hr
  rcases collectLoop_fail_flushed start_date end_date batch_size rest hbs ps [] file
    hs hinv with ⟨f', hrun, hsaved⟩
  refine ⟨f', ?_, ?_, ?_⟩
  · unfold get_reddit_posts_for_date
    rw [hrun]
  · simpa using hsaved
  · have hm := Nat.mod_lt (rowsOf (ps.filter (fun q => q.date ≤ end_date))).length hbs
    have hm2 := Nat.mod_le (rowsOf (ps.filter (fun q => q.date ≤ end_date))).length
      batch_size
    omega

theorem c9_witness :
    ∃ f', get_reddit_posts_for_date
            ([pA, pC, p9].map FeedItem.post ++ FeedItem.fail :: [])
            0 10 2 none = Except.error f' ∧
      flushedSaved 2 (rowsOf ([pA, pC, p9].filter (fun q => q.date ≤ 10))) f' ∧
      (rowsOf ([pA, pC, p9].filter (fun q => q.date ≤ 10))).length
        - ((rowsOf ([pA, pC, p9].filter (fun q => q.date ≤ 10))).length
            - (rowsOf ([pA, pC, p9].filter (fun q => q.date ≤ 10))).length % 2)
        ≤ 2 - 1 :=
  c9_failure_durability 0 10 2 none [pA, pC, p9] [] (by decide) (by decide)

/-- C5: the daily series produced by `analyze_daily_sentiment` contains the
pair `(d, v)` exactly when some post of the frame is dated `d` and `v` is the
arithmetic mean, over the frame's rows dated `d`, of
`overallSentiment(p) = (score(p.title) + score(p.body)) / 2`; dates with no
posts are absent. -/
theorem c5_daily_average (score : String → ℚ) (f : Frame) (d : Int) (v : ℚ) :
    (d, v) ∈ (analyze_daily_sentiment score f).2 ↔
      ((∃ r ∈ f.rows, r.post.date = d) ∧
        v = ((f.rows.filter (fun r => r.post.date = d)).map
              (fun r => overallSentiment score r.post)).sum
            / (((f.rows.filter (fun r => r.post.date = d)).length : ℚ))) := by
  have hdates : (f.rows.map (applySentimentRow score)).map (fun r => r.post.date)
      = f.rows.map (fun r => r.post.date) := by
    rw [List.map_map]
    rfl
  have hvals : ∀ d' : Int,
      ((f.rows.map (applySentimentRow score)).filter
          (fun r => r.post.date = d')).map (fun r => r.overall.getD 0)
      = (f.rows.filter (fun r => r.post.date = d')).map
          (fun r => overallSentiment score r.post) := by
    intro d'
    rw [List.filter_map, List.map_map]
    rfl
  simp only [analyze_daily_sentiment, hdates, hvals, List.length_map]
  constructor
  · intro hmem
    rcases List.mem_map.mp hmem with ⟨d', hd', heq⟩
    cases heq
    have hd2 : d ∈ f.rows.map (fun r => r.post.date) :=
      List.mem_dedup.mp ((List.mem_insertionSort (fun a b => a ≤ b)).mp hd')
    rcases List.mem_map.mp hd2 with ⟨r, hr, hrd⟩
    exact ⟨⟨r, hr, hrd⟩, rfl⟩
  · rintro ⟨⟨r, hr, hrd⟩, hv⟩
    subst hv
    refine List.mem_map.mpr ⟨d, ?_, rfl⟩
    exact (List.mem_insertionSort (fun a b => a ≤ b)).mpr
      (List.mem_dedup.mpr (List.mem_map.mpr ⟨r, hr, hrd⟩))

theorem c5_witness :
    ((5 : Int), (0 : ℚ)) ∈
      (analyze_daily_sentiment scoreEx (Frame.ofRows (rowsOf [pA, pC]))).2 :=
  (c5_daily_average scoreEx (Frame.ofRows (rowsOf [pA, pC])) 5 0).mpr
    ⟨⟨{ post := pA }, by decide, by decide⟩, by
      have e1 : scoreEx "a" = 1 := rfl
      have e2 : scoreEx "b" = 1 := rfl
      have e3 : scoreEx "c" = -1 := rfl
      have e4 : scoreEx "d" = -1 := rfl
      norm_num [Frame.ofRows, rowsOf, pA, pC, overallSentiment, e1, e2, e3, e4,
        List.filter]⟩

/-- C6 counterexample: with a loaded store holding one post dated 5 and an
empty collection, the pipeline emits an empty daily series, while the series
of `merge(loaded, [])` has one date: the emitted series is not computed from
the merged store when the collection is empty. -/
theorem c6_counterexample :
    (main_run scoreEx (some (Frame.ofRows (rowsOf [pA]))) [] 0 10 100).map
        (fun r => r.1) = Except.ok [] ∧
    ((analyze_daily_sentiment scoreEx
        (concatDedupFrames (Frame.ofRows (rowsOf [pA])) (Frame.ofRows []))).2).length
      = 1 :=
  ⟨rfl, rfl⟩

/-- C6 (amended): in every successful run, if the collection is nonempty the
emitted daily series is computed from `merge(loaded, collected)`; if the
collection is empty the series is computed from the empty collected frame and
is empty, regardless of the loaded store. -/
theorem c6_series_from_merge (score : String → ℚ) (file : Option Frame)
    (source : List FeedItem) (start_date end_date : Int) (batch_size : Nat)
    (daily : List (Int × ℚ)) (f2 : Frame)
    (h : main_run score file source start_date end_date batch_size
          = Except.ok (daily, f2)) :
    ∃ collected file1,
      get_reddit_posts_for_date source start_date end_date batch_size file
        = Except.ok (collected, file1) ∧
      (collected ≠ [] →
        daily = (analyze_daily_sentiment score
          (concatDedupFrames (loadedFrame file) (Frame.ofRows collected))).2) ∧
      (collected = [] → daily = []) := by
  unfold main_run at h
  cases hget : get_reddit_posts_for_date source start_date end_date batch_size file with
  | error f =>
      rw [hget] at h
      have h2 : Except.error (ε := Option Frame)
          (α := List (Int × ℚ) × Frame) f = Except.ok (daily, f2) := h
      exact Except.noConfusion h2
  | ok res =>
      obtain ⟨collected, file1⟩ := res
      rw [hget] at h
      have h2 : Except.ok (ε := Option Frame)
          ((analyze_daily_sentiment score
              (if collected.isEmpty = true then Frame.ofRows collected
               else concatDedupFrames (loadedFrame file)
                 (Frame.ofRows collected))).2,
            save_posts_to_csv file1
              (analyze_daily_sentiment score
                (if collected.isEmpty = true then Frame.ofRows collected
                 else concatDedupFrames (loadedFrame file)
                   (Frame.ofRows collected))).1)
          = Except.ok (daily, f2) := h
      cases h2
      refine ⟨collected, file1, rfl, ?_, ?_⟩
      · intro hne
        have hemp : collected.isEmpty = false := by
          cases collected with
          | nil => exact absurd rfl hne
          | cons a l => rfl
        rw [if_neg (by simp [hemp])]
      · intro hempty
        subst hempty
        rfl

theorem c6_witness :
    ∃ collected file1,
      get_reddit_posts_for_date [FeedItem.post pA] 0 10 100 none
        = Except.ok (collected, file1) ∧
      (collected ≠ [] →
        (analyze_daily_sentiment scoreEx (concatDedupFrames (loadedFrame none)
            (Frame.ofRows [{ post := pA }]))).2
          = (analyze_daily_sentiment scoreEx (concatDedupFrames (loadedFrame none)
              (Frame.ofRows collected))).2) ∧
      (collected = [] →
        (analyze_daily_sentiment scoreEx (concatDedupFrames (loadedFrame none)
            (Frame.ofRows [{ post := pA }]))).2 = []) :=
  c6_series_from_merge scoreEx none [FeedItem.post pA] 0 10 100
    (analyze_daily_sentiment scoreEx (concatDedupFrames (loadedFrame none)
      (Frame.ofRows [{ post := pA }]))).2
    (save_posts_to_csv (some (Frame.ofRows [{ post := pA }]))
      (analyze_daily_sentiment scoreEx (concatDedupFrames (loadedFrame none)
        (Frame.ofRows [{ post := pA }]))).1)
    rfl

/-- C7 counterexample: a concrete run of the windowed pipeline (absent initial
file, one in-window post) leaves a durable file in which all three derived
sentiment columns are present, so the file does not contain only the raw
fields Title, Text, Date. -/
theorem c7_counterexample :
    (main_run (fun _ => (0 : ℚ)) none
        [FeedItem.post { title := "t", body := "b", date := 5 }] 0 10 100).map
      (fun r => (r.2.hasSentTitle, r.2.hasSentText, r.2.hasOverall))
      = Except.ok (true, true, true) :=
  rfl

/-- C7 (amended): after every successful run of the windowed pipeline, the
durable file contains the three derived sentiment columns in addition to the
raw fields, because aggregation mutates the store frame in place and the
pipeline persists that mutated frame. -/
theorem c7_derived_cols_persisted (score : String → ℚ) (file : Option Frame)
    (source : List FeedItem) (start_date end_date : Int) (batch_size : Nat)
    (daily : List (Int × ℚ)) (F : Frame)
    (h : main_run score file source start_date end_date batch_size
          = Except.ok (daily, F)) :
    F.hasSentTitle = true ∧ F.hasSentText = true ∧ F.hasOverall = true := by
  unfold main_run at h
  cases hget : get_reddit_posts_for_date source start_date end_date batch_size file with
  | error f =>
      rw [hget] at h
      have h2 : Except.error (ε := Option Frame)
          (α := List (Int × ℚ) × Frame) f = Except.ok (daily, F) := h
      exact Except.noConfusion h2
  | ok res =>
      obtain ⟨collected, file1⟩ := res
      rw [hget] at h
      have h2 : Except.ok (ε := Option Frame)
          ((analyze_daily_sentiment score
              (if collected.isEmpty = true then Frame.ofRows collected
               else concatDedupFrames (loadedFrame file)
                 (Frame.ofRows collected))).2,
            save_posts_to_csv file1
              (analyze_daily_sentiment score
                (if collected.isEmpty = true then Frame.ofRows collected
                 else concatDedupFrames (loadedFrame file)
                   (Frame.ofRows collected))).1)
          = Except.ok (daily, F) := h
      cases h2
      cases file1 with
      | none => exact ⟨rfl, rfl, rfl⟩
      | some ex =>
          refine ⟨?_, ?_, ?_⟩ <;>
            simp [save_posts_to_csv, concatDedupFrames, analyze_daily_sentiment]

theorem c7_witness :
    (save_posts_to_csv (some (Frame.ofRows [{ post := pA }]))
        (analyze_daily_sentiment scoreEx (concatDedupFrames (loadedFrame none)
          (Frame.ofRows [{ post := pA }]))).1).hasSentTitle = true ∧
    (save_posts_to_csv (some (Frame.ofRows [{ post := pA }]))
        (analyze_daily_sentiment scoreEx (concatDedupFrames (loadedFrame none)
          (Frame.ofRows [{ post := pA }]))).1).hasSentText = true ∧
    (save_posts_to_csv (some (Frame.ofRows [{ post := pA }]))
        (analyze_daily_sentiment scoreEx (concatDedupFrames (loadedFrame none)
          (Frame.ofRows [{ post := pA }]))).1).hasOverall = true :=
  c7_derived_cols_persisted scoreEx none [FeedItem.post pA] 0 10 100
    (analyze_daily_sentiment scoreEx (concatDedupFrames (loadedFrame none)
      (Frame.ofRows [{ post := pA }]))).2
    (save_posts_to_csv (some (Frame.ofRows [{ post := pA }]))
      (analyze_daily_sentiment scoreEx (concatDedupFrames (loadedFrame none)
        (Frame.ofRows [{ post := pA }]))).1)
    rfl

/-- C8 counterexample: a malformed durable file is not treated as an empty
store; the read raises and the error propagates out of `load_posts_from_csv`. -/
theorem c8_counterexample :
    load_posts_from_csv (some FileData.malformed) = Except.error () ∧
    load_posts_from_csv (some FileData.malformed) ≠ Except.ok (Frame.ofRows []) :=
  ⟨rfl, fun h => Except.noConfusion h⟩

/-- C8 (amended): `load_posts_from_csv` returns the durable file's contents
when the file is present and well-formed, and an empty store when the file is
missing; on a malformed file the read error propagates instead of producing an
empty store. -/
theorem c8_load (F : Frame) :
    load_posts_from_csv none = Except.ok (Frame.ofRows []) ∧
    load_posts_from_csv (some (FileData.table F)) = Except.ok F ∧
    load_posts_from_csv (some FileData.malformed) = Except.error () :=
  ⟨rfl, rfl, rfl⟩

/-- C10: `analyze_daily_sentiment` mutates the frame passed to it: the frame
component of its result has the three derived columns present and every row
rewritten with the sentiment cells filled in, so a frame that lacked the
`Overall_Sentiment` column is not left unchanged by aggregation. -/
theorem c10_aggregation_mutates (score : String → ℚ) (f : Frame)
    (h : f.hasOverall = false) :
    (analyze_daily_sentiment score f).1.hasSentTitle = true ∧
    (analyze_daily_sentiment score f).1.hasSentText = true ∧
    (analyze_daily_sentiment score f).1.hasOverall = true ∧
    (analyze_daily_sentiment score f).1.rows
      = f.rows.map (applySentimentRow score) ∧
    (analyze_daily_sentiment score f).1 ≠ f := by
  refine ⟨rfl, rfl, rfl, rfl, ?_⟩
  intro heq
  have h1 : (analyze_daily_sentiment score f).1.hasOverall = true := rfl
  rw [heq, h] at h1
  exact Bool.noConfusion h1

theorem c10_witness :
    (analyze_daily_sentiment scoreEx (Frame.ofRows (rowsOf [pA]))).1.hasSentTitle
      = true ∧
    (analyze_daily_sentiment scoreEx (Frame.ofRows (rowsOf [pA]))).1.hasSentText
      = true ∧
    (analyze_daily_sentiment scoreEx (Frame.ofRows (rowsOf [pA]))).1.hasOverall
      = true ∧
    (analyze_daily_sentiment scoreEx (Frame.ofRows (rowsOf [pA]))).1.rows
      = (Frame.ofRows (rowsOf [pA])).rows.map (applySentimentRow scoreEx) ∧
    (analyze_daily_sentiment scoreEx (Frame.ofRows (rowsOf [pA]))).1
      ≠ Frame.ofRows (rowsOf [pA]) :=
  c10_aggregation_mutates scoreEx (Frame.ofRows (rowsOf [pA])) rfl
